import Mathlib

/-
Verification of the polymarket-arbitrage detection and projection core.

Shallow embedding of:
  polymarket_app/data/models.py        (ConditionPrices, OrderBook, Market)
  polymarket_app/arbitrage/single_condition.py
      (ArbitrageOpportunity, detect_single_condition_arbitrage)
  polymarket_app/arbitrage/bregman.py  (kl_divergence clipping, frank_wolfe_oracle)

Prices and sizes are embedded as exact rationals (the Python code uses floats;
the properties at issue are order/arithmetic facts independent of rounding).
-/

/-- Embedding of `ConditionPrices` (models.py, lines 7-39): a priced YES/NO pair. -/
structure ConditionPrices where
  token_id_yes : String
  token_id_no : String
  price_yes : ℚ
  price_no : ℚ
  outcome_yes : String
  outcome_no : String
deriving DecidableEq, Repr

/-- Derived `sum_prices` property: YES price + NO price. -/
def ConditionPrices.sum_prices (cp : ConditionPrices) : ℚ :=
  cp.price_yes + cp.price_no

/-- Derived `arbitrage_up` property: the pair sells for more than 1. -/
def ConditionPrices.arbitrage_up (cp : ConditionPrices) : Prop :=
  cp.sum_prices > 1

instance (cp : ConditionPrices) : Decidable cp.arbitrage_up := by
  unfold ConditionPrices.arbitrage_up; infer_instance

/-- Derived `arbitrage_down` property: the pair costs less than 1. -/
def ConditionPrices.arbitrage_down (cp : ConditionPrices) : Prop :=
  cp.sum_prices < 1

instance (cp : ConditionPrices) : Decidable cp.arbitrage_down := by
  unfold ConditionPrices.arbitrage_down; infer_instance

/-- Derived `profit_margin` property: sum - 1 if above 1, 1 - sum if below, else 0. -/
def ConditionPrices.profit_margin (cp : ConditionPrices) : ℚ :=
  if cp.sum_prices > 1 then cp.sum_prices - 1
  else if cp.sum_prices < 1 then 1 - cp.sum_prices
  else 0

/-- Embedding of `OrderBook` (models.py, lines 42-81): resting liquidity for one
token, as (price, size) levels. -/
structure OrderBook where
  asset_id : String
  bids : List (ℚ × ℚ)
  asks : List (ℚ × ℚ)
deriving DecidableEq, Repr

/-- Python tuple comparison on (price, size) pairs, as used by `sorted(...)`. -/
def pairLe (a b : ℚ × ℚ) : Bool :=
  decide (a.1 < b.1 ∨ (a.1 = b.1 ∧ a.2 ≤ b.2))

/-- Python tuple comparison for `sorted(..., reverse=True)`. -/
def pairGe (a b : ℚ × ℚ) : Bool :=
  decide (b.1 < a.1 ∨ (b.1 = a.1 ∧ b.2 ≤ a.2))

/-- The ask levels sorted ascending, as `sorted(self.asks)` in `vwap_buy`. -/
def sortAsc (l : List (ℚ × ℚ)) : List (ℚ × ℚ) := l.mergeSort pairLe

/-- The bid levels sorted descending, as `sorted(self.bids, reverse=True)` in `vwap_sell`. -/
def sortDesc (l : List (ℚ × ℚ)) : List (ℚ × ℚ) := l.mergeSort pairGe

/-- The loop of `vwap_buy`/`vwap_sell`: walk the levels accumulating cost and
remaining unfilled size, stopping once the remaining size is ≤ 0. Returns
(accumulated cost, remaining size). -/
def vwapWalk : List (ℚ × ℚ) → ℚ → ℚ → ℚ × ℚ
  | [], cost, remaining => (cost, remaining)
  | (price, levelSize) :: rest, cost, remaining =>
    if remaining - min remaining levelSize ≤ 0
    then (cost + price * min remaining levelSize, remaining - min remaining levelSize)
    else vwapWalk rest (cost + price * min remaining levelSize)
      (remaining - min remaining levelSize)

/-- Embedding of `OrderBook.vwap_buy` (models.py, lines 49-61): average price to
buy `size`, walking asks from the lowest; `none` on insufficient liquidity. -/
def OrderBook.vwap_buy (b : OrderBook) (size : ℚ) : Option ℚ :=
  if (vwapWalk (sortAsc b.asks) 0 size).2 > 0 then none
  else if size > 0 then some ((vwapWalk (sortAsc b.asks) 0 size).1 / size)
  else some 0

/-- Embedding of `OrderBook.vwap_sell` (models.py, lines 63-75): average price to
sell `size`, walking bids from the highest; `none` on insufficient liquidity. -/
def OrderBook.vwap_sell (b : OrderBook) (size : ℚ) : Option ℚ :=
  if (vwapWalk (sortDesc b.bids) 0 size).2 > 0 then none
  else if size > 0 then some ((vwapWalk (sortDesc b.bids) 0 size).1 / size)
  else some 0

/-- Embedding of `OrderBook.best_bid` (models.py, line 77): max bid price, if any. -/
def OrderBook.best_bid (b : OrderBook) : Option ℚ :=
  (b.bids.map Prod.fst).max?

/-- Embedding of `OrderBook.best_ask` (models.py, line 80): min ask price, if any. -/
def OrderBook.best_ask (b : OrderBook) : Option ℚ :=
  (b.asks.map Prod.fst).min?

/-- Embedding of `Market` (models.py, lines 84-147). -/
structure Market where
  id : String
  question : String
  slug : String
  event_slug : String
  condition_id : String
  outcomes : List String
  outcome_prices : List ℚ
  clob_token_ids : List String
  order_book_yes : Option OrderBook
  order_book_no : Option OrderBook
  end_date : String
deriving DecidableEq, Repr

/-- Embedding of `Market._gamma_prices` / `Market.get_prices` (models.py, lines
99-114): catalog prices, or `none` when outcome data is incomplete. -/
def Market.get_prices (m : Market) : Option ConditionPrices :=
  if m.outcomes.length < 2 ∨ m.outcome_prices.length < 2 ∨ m.clob_token_ids.length < 2
  then none
  else some
    { token_id_yes := m.clob_token_ids.getD 0 ""
      token_id_no := m.clob_token_ids.getD 1 ""
      price_yes := m.outcome_prices.getD 0 0
      price_no := m.outcome_prices.getD 1 0
      outcome_yes := m.outcomes.getD 0 ""
      outcome_no := m.outcomes.getD 1 "" }

/-- Embedding of `Market.get_order_book_prices` (models.py, lines 116-147):
(buy prices from best asks, sell prices from best bids), `Except.ok none` when
a book is missing or lacks a side, and `Except.error ()` for the IndexError
raised by the unguarded `clob_token_ids[0]` / `[1]` accesses when the token-id
list has fewer than two entries while books and all four quotes are present.
(The outcome-label accesses are conditionally guarded in the source, hence the
defaults; the token-id accesses are not.) -/
def Market.get_order_book_prices (m : Market) :
    Except Unit (Option (ConditionPrices × ConditionPrices)) :=
  match m.order_book_yes, m.order_book_no with
  | some obY, some obN =>
    match obY.best_ask, obN.best_ask, obY.best_bid, obN.best_bid with
    | some best_ask_yes, some best_ask_no, some best_bid_yes, some best_bid_no =>
      if 2 ≤ m.clob_token_ids.length then
        Except.ok (some
          ({ token_id_yes := m.clob_token_ids.getD 0 ""
             token_id_no := m.clob_token_ids.getD 1 ""
             price_yes := best_ask_yes
             price_no := best_ask_no
             outcome_yes := m.outcomes.getD 0 "Yes"
             outcome_no := m.outcomes.getD 1 "No" },
           { token_id_yes := m.clob_token_ids.getD 0 ""
             token_id_no := m.clob_token_ids.getD 1 ""
             price_yes := best_bid_yes
             price_no := best_bid_no
             outcome_yes := m.outcomes.getD 0 "Yes"
             outcome_no := m.outcomes.getD 1 "No" }))
      else Except.error ()
    | _, _, _, _ => Except.ok none
  | _, _ => Except.ok none

/-- Embedding of `ArbitrageOpportunity` (single_condition.py, lines 19-35). -/
structure ArbitrageOpportunity where
  market_id : String
  question : String
  slug : String
  event_slug : String
  direction : String
  price_yes : ℚ
  price_no : ℚ
  sum_prices : ℚ
  profit_margin : ℚ
  token_id_yes : String
  token_id_no : String
  order_book_yes : Option OrderBook
  order_book_no : Option OrderBook
  end_date : String
deriving DecidableEq, Repr

/-- Sum of the size components of a list of order-book levels. -/
def sumSizes (l : List (ℚ × ℚ)) : ℚ := (l.map Prod.snd).sum

/-- Embedding of `ArbitrageOpportunity.max_extractable_usd` (single_condition.py,
lines 41-52): `none` when a book is missing, else profit_margin times the
depth cap. -/
def ArbitrageOpportunity.max_extractable_usd (o : ArbitrageOpportunity)
    (max_size : Option ℚ) : Option ℚ :=
  match o.order_book_yes, o.order_book_no with
  | some obY, some obN =>
    let yes_depth := if o.direction = "sell_both" then sumSizes obY.bids else sumSizes obY.asks
    let no_depth := if o.direction = "sell_both" then sumSizes obN.bids else sumSizes obN.asks
    let cap := min yes_depth no_depth
    let cap := match max_size with
      | some ms => min cap ms
      | none => cap
    some (o.profit_margin * cap)
  | _, _ => none

/-- Price-source selection of `detect_single_condition_arbitrage`
(single_condition.py, lines 61-70). A supplied non-empty `clob_prices` dict is
embedded as `some (get "buy", get "sell")`; `None` or an empty dict as `none`.
An exception raised inside `get_order_book_prices` propagates. -/
def selectPrices (m : Market) (use_order_book : Bool)
    (clob_prices : Option (Option ConditionPrices × Option ConditionPrices)) :
    Except Unit (Option ConditionPrices × Option ConditionPrices) :=
  match clob_prices with
  | some (b, s) => Except.ok (b, s)
  | none =>
    if use_order_book then
      match m.get_order_book_prices with
      | Except.error e => Except.error e
      | Except.ok (some (obBuy, obSell)) => Except.ok (some obBuy, some obSell)
      | Except.ok none => Except.ok (m.get_prices, m.get_prices)
    else Except.ok (m.get_prices, m.get_prices)

/-- The opportunity record built by the detector for a given direction and
triggering prices (single_condition.py, lines 77-113). -/
def mkOpportunity (m : Market) (dir : String) (cp : ConditionPrices) :
    ArbitrageOpportunity :=
  { market_id := m.id
    question := m.question
    slug := m.slug
    event_slug := m.event_slug
    end_date := m.end_date
    direction := dir
    price_yes := cp.price_yes
    price_no := cp.price_no
    sum_prices := cp.sum_prices
    profit_margin := cp.profit_margin
    token_id_yes := cp.token_id_yes
    token_id_no := cp.token_id_no
    order_book_yes := m.order_book_yes
    order_book_no := m.order_book_no }

/-- Embedding of `detect_single_condition_arbitrage` (single_condition.py,
lines 55-114); an exception raised during price selection propagates. -/
def detect_single_condition_arbitrage (m : Market) (min_profit : ℚ)
    (use_order_book : Bool)
    (clob_prices : Option (Option ConditionPrices × Option ConditionPrices)) :
    Except Unit (List ArbitrageOpportunity) :=
  match selectPrices m use_order_book clob_prices with
  | Except.error e => Except.error e
  | Except.ok (some buy_prices, some sell_prices) =>
    Except.ok
      ((if buy_prices.arbitrage_down ∧ buy_prices.profit_margin ≥ min_profit
        then [mkOpportunity m "buy_both" buy_prices] else []) ++
       (if sell_prices.arbitrage_up ∧ sell_prices.profit_margin ≥ min_profit
        then [mkOpportunity m "sell_both" sell_prices] else []))
  | Except.ok _ => Except.ok []

/-- Embedding of `np.clip(x, lo, hi)` for a scalar. -/
def clip (x lo hi : ℚ) : ℚ := max lo (min x hi)

/-- Default `eps` of `kl_divergence` (bregman.py, line 13): 1e-10. -/
def klEps : ℚ := 1 / 10000000000

/-- Default lower box bound of `bregman_projection_lmsr` (bregman.py, line 23): 1e-6. -/
def boxLo : ℚ := 1 / 1000000

/-- The clipping applied by `kl_divergence` to each of its two vector arguments
before any logarithm is taken (bregman.py, lines 14-15). -/
def klSafe (v : List ℚ) (eps : ℚ) : List ℚ :=
  v.map fun x => clip x eps (1 - eps)

/-- Embedding of `kl_divergence(mu, theta, eps)` (bregman.py, lines 13-16):
sum of m * (log m - log t) over the clipped vectors. -/
noncomputable def kl_divergence (mu theta : List ℚ) (eps : ℚ) : ℝ :=
  (List.zipWith (fun m t => (m : ℝ) * (Real.log m - Real.log t))
    (klSafe mu eps) (klSafe theta eps)).sum

/-- The objective used inside `bregman_projection_lmsr` (bregman.py, lines 29-30):
it calls `kl_divergence(mu, theta)` with the default `eps`, independent of the
projector's `bounds` parameter. -/
noncomputable def bregmanObjective (theta mu : List ℚ) : ℝ :=
  kl_divergence mu theta klEps

/-- Minimum of x and the elements of l (fold of `min`). -/
def listMin (x : ℚ) (l : List ℚ) : ℚ := l.foldl min x

/-- Index of the first minimum of a list, as `np.argmin` (0 on the empty list). -/
def argminIdx : List ℚ → ℕ
  | [] => 0
  | x :: xs =>
    match xs with
    | [] => 0
    | y :: t => if x ≤ listMin y t then 0 else argminIdx (y :: t) + 1

/-- The length-n standard basis vector with a 1 at index i. -/
def stdBasis (n i : ℕ) : List ℚ :=
  (List.range n).map fun j => if j = i then 1 else 0

/-- Dot product of two rational vectors. -/
def dot (a b : List ℚ) : ℚ := (List.zipWith (· * ·) a b).sum

/-- Matrix-vector product, rows as lists. -/
def matVec (mat : List (List ℚ)) (x : List ℚ) : List ℚ :=
  mat.map fun row => dot row x

/-- Embedding of `frank_wolfe_oracle` (bregman.py, lines 45-53): ignores the
constraint matrix and right-hand side; returns the standard basis vector at
the first index of the gradient's minimum component. -/
def frank_wolfe_oracle (gradient : List ℚ) (constraint_matrix : List (List ℚ))
    (constraint_rhs : List ℚ) : List ℚ :=
  stdBasis gradient.length (argminIdx gradient)

/-- Membership in the polytope described by equality constraints `mat · x = rhs`. -/
def inPolytope (mat : List (List ℚ)) (rhs : List ℚ) (x : List ℚ) : Prop :=
  matVec mat x = rhs

instance (mat : List (List ℚ)) (rhs : List ℚ) (x : List ℚ) :
    Decidable (inPolytope mat rhs x) := by
  unfold inPolytope; infer_instance

/-- Membership in the probability simplex: nonnegative entries summing to 1. -/
def inSimplex (x : List ℚ) : Prop := (∀ v ∈ x, 0 ≤ v) ∧ x.sum = 1

instance (x : List ℚ) : Decidable (inSimplex x) := by
  unfold inSimplex; infer_instance

/-- Specification of a first-minimum index: in bounds, value no larger than any
element, and strictly smaller than every earlier entry. -/
def IsFirstMin (l : List ℚ) (i : ℕ) : Prop :=
  i < l.length ∧ (∀ y ∈ l, l.getD i 0 ≤ y) ∧ ∀ j < i, l.getD i 0 < l.getD j 0

/-- Per-leg depth used by the estimator: all ask sizes for buy_both (and any
other direction), all bid sizes for sell_both. Definitionally equal to the
depth computed inside `max_extractable_usd`. -/
def legDepth (dir : String) (ob : OrderBook) : ℚ :=
  if dir = "sell_both" then sumSizes ob.bids else sumSizes ob.asks

/-- Independent characterization of a greedy fill: the cost of filling a
request of size q against the given price levels in list order, taking
min(level size, remaining request) at each level (no early exit, requests
clamped at 0). -/
def fillCost : List (ℚ × ℚ) → ℚ → ℚ
  | [], _ => 0
  | (price, levelSize) :: rest, q =>
    price * min levelSize (max q 0) +
      fillCost rest (q - min levelSize (max q 0))

/-- Concrete ConditionPrices for spec scenario 1: YES at 0.45, NO at 0.50. -/
def cpDemo : ConditionPrices :=
  { token_id_yes := "tok_yes"
    token_id_no := "tok_no"
    price_yes := 45/100
    price_no := 50/100
    outcome_yes := "Yes"
    outcome_no := "No" }

/-- Concrete market for spec scenario 1: catalog prices 0.45 / 0.50, no books. -/
def demoMarket : Market :=
  { id := "m1"
    question := "Will it resolve YES?"
    slug := "m1-slug"
    event_slug := "m1-event"
    condition_id := "c1"
    outcomes := ["Yes", "No"]
    outcome_prices := [45/100, 50/100]
    clob_token_ids := ["tok_yes", "tok_no"]
    order_book_yes := none
    order_book_no := none
    end_date := "" }

/-- Concrete YES order book for spec scenario 4: 100 shares asked at 0.45. -/
def obYdemo : OrderBook :=
  { asset_id := "tok_yes", bids := [], asks := [(45/100, 100)] }

/-- Concrete NO order book for spec scenario 4: 80 shares asked at 0.50. -/
def obNdemo : OrderBook :=
  { asset_id := "tok_no", bids := [], asks := [(50/100, 80)] }

/-- Concrete buy_both opportunity for spec scenario 4, margin 0.05, with the
two demo order books attached. -/
def oppDemo : ArbitrageOpportunity :=
  { market_id := "m1"
    question := "Will it resolve YES?"
    slug := "m1-slug"
    event_slug := "m1-event"
    direction := "buy_both"
    price_yes := 45/100
    price_no := 50/100
    sum_prices := 95/100
    profit_margin := 5/100
    token_id_yes := "tok_yes"
    token_id_no := "tok_no"
    order_book_yes := some obYdemo
    order_book_no := some obNdemo
    end_date := "" }

/-- Concrete market with no price data at all: empty outcome lists, no books. -/
def demoMarketBare : Market :=
  { id := "m0"
    question := ""
    slug := ""
    event_slug := ""
    condition_id := ""
    outcomes := []
    outcome_prices := []
    clob_token_ids := []
    order_book_yes := none
    order_book_no := none
    end_date := "" }

/-- Concrete order book with one bid and one ask on it. -/
def obUnit : OrderBook :=
  { asset_id := "t", bids := [(1, 10)], asks := [(1, 10)] }

/-- Concrete market with both order books attached and all four best quotes
present, but fewer than two clob token ids: the input on which the source's
`get_order_book_prices` raises IndexError at `clob_token_ids[0]`. -/
def demoMarketShortIds : Market :=
  { id := "m2"
    question := ""
    slug := ""
    event_slug := ""
    condition_id := ""
    outcomes := ["Yes", "No"]
    outcome_prices := [1, 1]
    clob_token_ids := []
    order_book_yes := some obUnit
    order_book_no := some obUnit
    end_date := "" }

lemma sumSizes_nonneg (l : List (ℚ × ℚ)) (h : ∀ p ∈ l, 0 ≤ p.2) :
    0 ≤ sumSizes l := by
  unfold sumSizes
  apply List.sum_nonneg
  intro x hx
  rcases List.mem_map.mp hx with ⟨p, hp, rfl⟩
  exact h p hp

lemma get_order_book_prices_ok_none_iff (m : Market) :
    m.get_order_book_prices = Except.ok none ↔
      m.order_book_yes = none ∨ m.order_book_no = none ∨
      (∃ obY obN, m.order_book_yes = some obY ∧ m.order_book_no = some obN ∧
        (obY.best_ask = none ∨ obN.best_ask = none ∨
         obY.best_bid = none ∨ obN.best_bid = none)) := by
  cases hY : m.order_book_yes with
  | none => simp [Market.get_order_book_prices, hY]
  | some obY =>
    cases hN : m.order_book_no with
    | none => simp [Market.get_order_book_prices, hY, hN]
    | some obN =>
      cases h1 : obY.best_ask <;> cases h2 : obN.best_ask <;>
        cases h3 : obY.best_bid <;> cases h4 : obN.best_bid <;>
        simp [Market.get_order_book_prices, hY, hN, h1, h2, h3, h4, ite_eq_iff]

lemma listMin_le_self (x : ℚ) (l : List ℚ) : listMin x l ≤ x := by
  induction l generalizing x with
  | nil => exact le_refl x
  | cons y t ih =>
    have h := ih (min x y)
    calc listMin x (y :: t) = listMin (min x y) t := rfl
    _ ≤ min x y := h
    _ ≤ x := min_le_left x y

lemma listMin_le_mem (x : ℚ) (l : List ℚ) : ∀ y ∈ l, listMin x l ≤ y := by
  induction l generalizing x with
  | nil => intro y hy; cases hy
  | cons z t ih =>
    intro y hy
    rcases List.mem_cons.mp hy with h | h
    · subst h
      calc listMin x (y :: t) = listMin (min x y) t := rfl
      _ ≤ min x y := listMin_le_self _ _
      _ ≤ y := min_le_right x y
    · exact ih (min x z) y h

lemma listMin_mem (x : ℚ) (l : List ℚ) : listMin x l = x ∨ listMin x l ∈ l := by
  induction l generalizing x with
  | nil => exact Or.inl rfl
  | cons y t ih =>
    rcases ih (min x y) with h | h
    · rcases le_total x y with hxy | hxy
      · left
        calc listMin x (y :: t) = listMin (min x y) t := rfl
        _ = min x y := h
        _ = x := min_eq_left hxy
      · right
        refine List.mem_cons.mpr (Or.inl ?_)
        calc listMin x (y :: t) = listMin (min x y) t := rfl
        _ = min x y := h
        _ = y := min_eq_right hxy
    · exact Or.inr (List.mem_cons.mpr (Or.inr h))

lemma listMin_le_all (y : ℚ) (t : List ℚ) : ∀ z ∈ y :: t, listMin y t ≤ z := by
  intro z hz
  rcases List.mem_cons.mp hz with h | h
  · subst h; exact listMin_le_self z t
  · exact listMin_le_mem y t z h

lemma argminIdx_spec : ∀ l : List ℚ, l ≠ [] → IsFirstMin l (argminIdx l)
  | [], h => absurd rfl h
  | [x], _ => by
    have h0 : argminIdx [x] = 0 := rfl
    refine ⟨by simp [h0], ?_, ?_⟩
    · intro y hy
      rcases List.mem_singleton.mp hy with rfl
      rw [h0, List.getD_cons_zero]
    · intro j hj
      rw [h0] at hj
      exact absurd hj (Nat.not_lt_zero j)
  | x :: y :: t, _ => by
    have ih := argminIdx_spec (y :: t) (by simp)
    obtain ⟨ihlt, ihle, ihfirst⟩ := ih
    by_cases hx : x ≤ listMin y t
    · have hargmin : argminIdx (x :: y :: t) = 0 := by
        simp [argminIdx, hx]
      refine ⟨?_, ?_, ?_⟩
      · simp [hargmin]
      · intro z hz
        rw [hargmin, List.getD_cons_zero]
        rcases List.mem_cons.mp hz with h | h
        · exact le_of_eq h.symm
        · exact le_trans hx (listMin_le_all y t z h)
      · intro j hj
        rw [hargmin] at hj
        exact absurd hj (Nat.not_lt_zero j)
    · have hargmin : argminIdx (x :: y :: t) = argminIdx (y :: t) + 1 := by
        simp [argminIdx, hx]
      have hmlt : listMin y t < x := lt_of_not_le hx
      have hval : (x :: y :: t).getD (argminIdx (y :: t) + 1) 0
          = (y :: t).getD (argminIdx (y :: t)) 0 := by
        simp [List.getD_cons_succ]
      have hvmem : (y :: t).getD (argminIdx (y :: t)) 0 ∈ (y :: t) := by
        rw [List.getD_eq_getElem _ _ ihlt]
        exact List.getElem_mem _
      have hvle_min : (y :: t).getD (argminIdx (y :: t)) 0 ≤ listMin y t := by
        rcases listMin_mem y t with h | h
        · rw [h]
          exact ihle y (List.mem_cons_self y t)
        · exact ihle _ (List.mem_cons_of_mem y h)
      refine ⟨?_, ?_, ?_⟩
      · rw [hargmin]
        simpa using Nat.succ_lt_succ ihlt
      · intro z hz
        rw [hargmin, hval]
        rcases List.mem_cons.mp hz with h | h
        · subst h
          exact le_of_lt (lt_of_le_of_lt hvle_min hmlt)
        · exact ihle z h
      · intro j hj
        rw [hargmin] at hj
        rw [hargmin, hval]
        match j with
        | 0 =>
          rw [List.getD_cons_zero]
          exact lt_of_le_of_lt hvle_min hmlt
        | j' + 1 =>
          rw [List.getD_cons_succ]
          exact ihfirst j' (Nat.lt_of_succ_lt_succ hj)

lemma stdBasis_length (n i : ℕ) : (stdBasis n i).length = n := by
  simp [stdBasis]

lemma stdBasis_nonneg (n i : ℕ) : ∀ v ∈ stdBasis n i, 0 ≤ v := by
  intro v hv
  unfold stdBasis at hv
  rcases List.mem_map.mp hv with ⟨j, _, rfl⟩
  split <;> norm_num

lemma stdBasis_sum (n i : ℕ) (h : i < n) : (stdBasis n i).sum = 1 := by
  induction n with
  | zero => exact absurd h (Nat.not_lt_zero i)
  | succ n ih =>
    unfold stdBasis
    rw [List.range_succ, List.map_append, List.sum_append]
    by_cases hi : i < n
    · have hne : n ≠ i := by omega
      have : (stdBasis n i).sum = 1 := ih hi
      unfold stdBasis at this
      simp [this, hne]
    · have hni : i = n := by omega
      subst hni
      have hz : ((List.range i).map fun j => if j = i then (1 : ℚ) else 0).sum = 0 := by
        apply List.sum_eq_zero
        intro x hx
        rcases List.mem_map.mp hx with ⟨j, hj, rfl⟩
        have : j ≠ i := by
          have := List.mem_range.mp hj
          omega
        simp [this]
      simp [hz]

lemma dot_nil_right (g : List ℚ) : dot g [] = 0 := by
  unfold dot
  cases g <;> simp

lemma stdBasis_succ_zero (n : ℕ) : stdBasis (n + 1) 0 = 1 :: List.replicate n 0 := by
  unfold stdBasis
  rw [List.range_succ_eq_map]
  simp only [List.map_cons, if_pos rfl, List.map_map]
  congr 1
  have h : ∀ j ∈ List.range n,
      ((fun j => if j = 0 then (1 : ℚ) else 0) ∘ Nat.succ) j = (fun _ => (0 : ℚ)) j := by
    intro j _
    simp
  rw [List.map_congr_left h, List.map_const']
  simp

lemma stdBasis_succ_succ (n i : ℕ) :
    stdBasis (n + 1) (i + 1) = 0 :: stdBasis n i := by
  unfold stdBasis
  rw [List.range_succ_eq_map]
  simp only [List.map_cons, List.map_map]
  congr 1
  apply List.map_congr_left
  intro j _
  simp only [Function.comp_apply]
  by_cases h : j = i
  · simp [h]
  · have : j + 1 ≠ i + 1 := by omega
    simp [h, this]

lemma dot_replicate_zero (g : List ℚ) (n : ℕ) : dot g (List.replicate n 0) = 0 := by
  induction g generalizing n with
  | nil => simp [dot]
  | cons a g' ih =>
    cases n with
    | zero => simp [dot]
    | succ m =>
      rw [List.replicate_succ]
      unfold dot at ih ⊢
      simp [ih m]

lemma dot_stdBasis (g : List ℚ) (i : ℕ) (h : i < g.length) :
    dot g (stdBasis g.length i) = g.getD i 0 := by
  induction g generalizing i with
  | nil => simp at h
  | cons a g' ih =>
    cases i with
    | zero =>
      rw [List.length_cons, stdBasis_succ_zero, List.getD_cons_zero]
      unfold dot
      rw [List.zipWith_cons_cons, List.sum_cons]
      have := dot_replicate_zero g' g'.length
      unfold dot at this
      rw [this]
      ring
    | succ i' =>
      rw [List.length_cons, stdBasis_succ_succ, List.getD_cons_succ]
      unfold dot
      rw [List.zipWith_cons_cons, List.sum_cons]
      have := ih i' (Nat.lt_of_succ_lt_succ h)
      unfold dot at this
      rw [this]
      ring

lemma dot_ge_scaled_sum (g x : List ℚ) (c : ℚ) (hlen : x.length = g.length)
    (hg : ∀ y ∈ g, c ≤ y) (hx : ∀ v ∈ x, 0 ≤ v) : c * x.sum ≤ dot g x := by
  induction g generalizing x with
  | nil =>
    rcases List.length_eq_zero.mp hlen with rfl
    simp [dot]
  | cons a g' ih =>
    match x with
    | [] => simp at hlen
    | b :: x' =>
      unfold dot
      rw [List.zipWith_cons_cons, List.sum_cons, List.sum_cons]
      have h1 : c * b ≤ a * b := by
        apply mul_le_mul_of_nonneg_right
        · exact hg a (List.mem_cons_self a g')
        · exact hx b (List.mem_cons_self b x')
      have h2 : c * x'.sum ≤ dot g' x' := by
        apply ih x'
        · simpa using hlen
        · intro y hy; exact hg y (List.mem_cons_of_mem a hy)
        · intro v hv; exact hx v (List.mem_cons_of_mem b hv)
      unfold dot at h2
      calc c * (b + x'.sum) = c * b + c * x'.sum := by ring
      _ ≤ a * b + (List.zipWith (· * ·) g' x').sum := add_le_add h1 h2

/-- Claim C3: for every ConditionPrices, sum_prices is the sum of the two
prices, the two arbitrage flags are mutually exclusive, profit_margin is
nonnegative, profit_margin is zero exactly when neither flag holds, and when a
flag holds profit_margin equals |sum_prices - 1|. -/
theorem conditionPrices_invariants (cp : ConditionPrices) :
    cp.sum_prices = cp.price_yes + cp.price_no ∧
    ¬(cp.arbitrage_up ∧ cp.arbitrage_down) ∧
    0 ≤ cp.profit_margin ∧
    (cp.profit_margin = 0 ↔ ¬cp.arbitrage_up ∧ ¬cp.arbitrage_down) ∧
    ((cp.arbitrage_up ∨ cp.arbitrage_down) → cp.profit_margin = |cp.sum_prices - 1|) := by
  unfold ConditionPrices.profit_margin ConditionPrices.arbitrage_up
    ConditionPrices.arbitrage_down
  refine ⟨rfl, ?_, ?_, ?_, ?_⟩
  · rintro ⟨h1, h2⟩; linarith
  · split_ifs with h1 h2 <;> linarith
  · split_ifs with h1 h2
    · constructor
      · intro h; linarith
      · rintro ⟨hu, _⟩; exact absurd h1 hu
    · constructor
      · intro h; linarith
      · rintro ⟨_, hd⟩; exact absurd h2 hd
    · exact ⟨fun _ => ⟨h1, h2⟩, fun _ => rfl⟩
  · intro h
    rcases h with h | h
    · rw [if_pos h, abs_of_pos (by linarith)]
    · have h1 : ¬ cp.sum_prices > 1 := by linarith
      rw [if_neg h1, if_pos h, abs_of_neg (by linarith)]
      ring

/-- Claim C5 (amended): before every KL-divergence evaluation both θ and the
trial μ are clipped into [ε, 1−ε] where ε is the divergence function's own
default epsilon 1e-10 (not the projector's box epsilon 1e-6), so every clipped
entry is strictly positive and strictly below 1 and the logarithms are applied
to positive arguments only; the projector's objective evaluates the divergence
at exactly this default epsilon. -/
theorem kl_divergence_clipping (mu theta : List ℚ) :
    (∀ x ∈ klSafe mu klEps ++ klSafe theta klEps,
      klEps ≤ x ∧ x ≤ 1 - klEps ∧ 0 < x ∧ x < 1) ∧
    bregmanObjective theta mu = kl_divergence mu theta klEps ∧
    klEps = 1 / 10000000000 := by
  refine ⟨?_, rfl, rfl⟩
  intro x hx
  have hx' : x ∈ klSafe mu klEps ∨ x ∈ klSafe theta klEps := List.mem_append.mp hx
  have hbox : ∀ v : List ℚ, x ∈ klSafe v klEps →
      klEps ≤ x ∧ x ≤ 1 - klEps ∧ 0 < x ∧ x < 1 := by
    intro v hv
    unfold klSafe at hv
    rcases List.mem_map.mp hv with ⟨y, _, rfl⟩
    unfold clip
    have hlo : klEps ≤ max klEps (min y (1 - klEps)) := le_max_left _ _
    have hhi : max klEps (min y (1 - klEps)) ≤ 1 - klEps := by
      apply max_le
      · unfold klEps; norm_num
      · exact min_le_right _ _
    refine ⟨hlo, hhi, ?_, ?_⟩
    · apply lt_of_lt_of_le _ hlo
      unfold klEps; norm_num
    · apply lt_of_le_of_lt hhi
      unfold klEps; norm_num
  rcases hx' with h | h
  · exact hbox mu h
  · exact hbox theta h

/-- Claim C5 counterexample: the clipping epsilon actually used by the
divergence (its default, 1e-10) is not the projector's box epsilon (1e-6):
at input 0 the two clips produce different values. -/
theorem kl_clip_eps_cex :
    klSafe [0] klEps = [klEps] ∧ klSafe [0] boxLo = [boxLo] ∧
    klEps ≠ boxLo ∧ klSafe [0] klEps ≠ klSafe [0] boxLo := by
  have hk : klSafe [0] klEps = [klEps] := by
    unfold klSafe clip
    rw [List.map_singleton, min_eq_left (by norm_num [klEps]), max_eq_left (by norm_num [klEps])]
  have hb : klSafe [0] boxLo = [boxLo] := by
    unfold klSafe clip
    rw [List.map_singleton, min_eq_left (by norm_num [boxLo]), max_eq_left (by norm_num [boxLo])]
  have hne : klEps ≠ boxLo := by norm_num [klEps, boxLo]
  refine ⟨hk, hb, hne, ?_⟩
  rw [hk, hb]
  simp only [ne_eq, List.cons.injEq, and_true]
  exact hne

/-- Claim C6 (amended): the extraction oracle returns the standard basis vector
at the first index of the gradient's minimum component, regardless of the
constraint matrix and right-hand side; when the feasible region is the full
probability simplex, this vector lies in the simplex and minimizes
gradient · x over it. -/
theorem frank_wolfe_oracle_simplex_min (g : List ℚ) (mat : List (List ℚ))
    (rhs : List ℚ) (h : g ≠ []) :
    frank_wolfe_oracle g mat rhs = stdBasis g.length (argminIdx g) ∧
    IsFirstMin g (argminIdx g) ∧
    inSimplex (frank_wolfe_oracle g mat rhs) ∧
    ∀ x, inSimplex x → x.length = g.length →
      dot g (frank_wolfe_oracle g mat rhs) ≤ dot g x := by
  obtain ⟨hlt, hle, hfirst⟩ := argminIdx_spec g h
  refine ⟨rfl, ⟨hlt, hle, hfirst⟩, ?_, ?_⟩
  · exact ⟨stdBasis_nonneg _ _, stdBasis_sum _ _ hlt⟩
  · intro x hx hxlen
    unfold frank_wolfe_oracle
    rw [dot_stdBasis g (argminIdx g) hlt]
    have := dot_ge_scaled_sum g x (g.getD (argminIdx g) 0) hxlen hle hx.1
    rw [hx.2, mul_one] at this
    exact this

/-- Claim C6 counterexample: for the polytope {x | x = (1/2, 1/2)} (a non-empty
subset of the probability simplex, given by equality constraints), the oracle's
output (1, 0) is not even a member of the polytope, hence not a vertex of it
minimizing the linear functional. -/
theorem frank_wolfe_oracle_cex :
    frank_wolfe_oracle [0, 1] [[1, 0], [0, 1]] [1/2, 1/2] = [1, 0] ∧
    ¬ inPolytope [[1, 0], [0, 1]] [1/2, 1/2]
        (frank_wolfe_oracle [0, 1] [[1, 0], [0, 1]] [1/2, 1/2]) ∧
    inPolytope [[1, 0], [0, 1]] [1/2, 1/2] [1/2, 1/2] ∧
    inSimplex [1/2, 1/2] := by
  have horacle : frank_wolfe_oracle [0, 1] [[1, 0], [0, 1]] [1/2, 1/2] = [1, 0] := by
    unfold frank_wolfe_oracle
    have ha : argminIdx [0, 1] = 0 := by norm_num [argminIdx, listMin, min_def]
    rw [ha]
    rfl
  refine ⟨horacle, ?_, ?_, ?_⟩
  · rw [horacle]
    norm_num [inPolytope, matVec, dot]
  · norm_num [inPolytope, matVec, dot]
  · constructor
    · intro v hv
      rcases List.mem_cons.mp hv with h | h
      · subst h; norm_num
      · rcases List.mem_singleton.mp h with rfl; norm_num
    · norm_num

/-- Claim C10: the extraction oracle's output depends only on the gradient:
any two constraint matrix / right-hand-side pairs give the same result, the
standard basis vector at the gradient's first minimum index. -/
theorem frank_wolfe_oracle_ignores_constraints (g : List ℚ)
    (mat1 mat2 : List (List ℚ)) (rhs1 rhs2 : List ℚ) :
    frank_wolfe_oracle g mat1 rhs1 = frank_wolfe_oracle g mat2 rhs2 ∧
    (g ≠ [] → IsFirstMin g (argminIdx g) ∧
      frank_wolfe_oracle g mat1 rhs1 = stdBasis g.length (argminIdx g)) := by
  exact ⟨rfl, fun h => ⟨argminIdx_spec g h, rfl⟩⟩

/-- Witness for C6: the amended oracle theorem applied at gradient (3, 1, 2)
with a concrete constraint system. -/
theorem frank_wolfe_oracle_simplex_min_witness :
    frank_wolfe_oracle [3, 1, 2] [[1, 1, 1]] [1] = [0, 1, 0] ∧
    inSimplex (frank_wolfe_oracle [3, 1, 2] [[1, 1, 1]] [1]) := by
  have h := frank_wolfe_oracle_simplex_min [3, 1, 2] [[1, 1, 1]] [1] (by simp)
  refine ⟨?_, h.2.2.1⟩
  rw [h.1]
  have ha : argminIdx [3, 1, 2] = 1 := by norm_num [argminIdx, listMin, min_def]
  rw [ha]
  rfl

/-- Witness for C10: constraint independence at a concrete gradient and two
different constraint systems. -/
theorem frank_wolfe_oracle_ignores_constraints_witness :
    frank_wolfe_oracle [2, 5] [[1, 0]] [1] = frank_wolfe_oracle [2, 5] [[0, 7], [1, 1]] [3, 4] ∧
    frank_wolfe_oracle [2, 5] [[1, 0]] [1] = stdBasis 2 (argminIdx [2, 5]) := by
  have h := frank_wolfe_oracle_ignores_constraints [2, 5] [[1, 0]] [[0, 7], [1, 1]] [1] [3, 4]
  exact ⟨h.1, (h.2 (by simp)).2⟩

lemma detect_demo_eval (t : ℚ) (ht : t ≤ 1/20) :
    detect_single_condition_arbitrage demoMarket t true none =
      Except.ok [mkOpportunity demoMarket "buy_both" cpDemo] := by
  have h3 : selectPrices demoMarket true none =
      Except.ok (some cpDemo, some cpDemo) := rfl
  have hm : cpDemo.profit_margin = 1/20 := by
    norm_num [ConditionPrices.profit_margin, ConditionPrices.sum_prices, cpDemo]
  have hdd : cpDemo.arbitrage_down ∧ cpDemo.profit_margin ≥ t := by
    refine ⟨?_, ?_⟩
    · show cpDemo.sum_prices < 1
      norm_num [ConditionPrices.sum_prices, cpDemo]
    · rw [hm]
      linarith
  have hdu : ¬(cpDemo.arbitrage_up ∧ cpDemo.profit_margin ≥ t) := by
    rintro ⟨h, _⟩
    norm_num [ConditionPrices.arbitrage_up, ConditionPrices.sum_prices, cpDemo] at h
  have hexp : detect_single_condition_arbitrage demoMarket t true none =
      Except.ok
        ((if cpDemo.arbitrage_down ∧ cpDemo.profit_margin ≥ t
          then [mkOpportunity demoMarket "buy_both" cpDemo] else []) ++
         (if cpDemo.arbitrage_up ∧ cpDemo.profit_margin ≥ t
          then [mkOpportunity demoMarket "sell_both" cpDemo] else [])) := by
    unfold detect_single_condition_arbitrage
    rw [h3]
  rw [hexp, if_pos hdd, if_neg hdu, List.append_nil]

/-- Claim C1: the detector emits a buy_both opportunity exactly when the
selected buy-side prices have arbitrage_down and margin at least min_profit,
independently a sell_both opportunity exactly when the selected sell-side
prices have arbitrage_up and margin at least min_profit, returns at most 2
opportunities; and on the scenario price_yes=0.45, price_no=0.50 with
threshold 0.03 it returns exactly one buy_both opportunity with sum 0.95 and
margin 0.05. -/
theorem detect_emission_rule (m : Market) (minp : ℚ) (uob : Bool)
    (cps : Option (Option ConditionPrices × Option ConditionPrices))
    (bp sp : ConditionPrices)
    (hsel : selectPrices m uob cps = Except.ok (some bp, some sp)) :
    (∃ l, detect_single_condition_arbitrage m minp uob cps = Except.ok l ∧
      ((∃ o ∈ l, o.direction = "buy_both") ↔
        bp.arbitrage_down ∧ bp.profit_margin ≥ minp) ∧
      ((∃ o ∈ l, o.direction = "sell_both") ↔
        sp.arbitrage_up ∧ sp.profit_margin ≥ minp) ∧
      l.length ≤ 2) ∧
    ∃ ld, detect_single_condition_arbitrage demoMarket (3/100) true none =
        Except.ok ld ∧
      ld.map (fun o => (o.direction, o.sum_prices, o.profit_margin)) =
        [("buy_both", 19/20, 1/20)] := by
  constructor
  · refine ⟨(if bp.arbitrage_down ∧ bp.profit_margin ≥ minp
        then [mkOpportunity m "buy_both" bp] else []) ++
      (if sp.arbitrage_up ∧ sp.profit_margin ≥ minp
        then [mkOpportunity m "sell_both" sp] else []), ?_, ?_, ?_, ?_⟩
    · unfold detect_single_condition_arbitrage
      rw [hsel]
    · by_cases hb : bp.arbitrage_down ∧ bp.profit_margin ≥ minp
      · rw [if_pos hb]
        constructor
        · intro _
          exact hb
        · intro _
          exact ⟨mkOpportunity m "buy_both" bp,
            List.mem_append.mpr (Or.inl (List.mem_singleton.mpr rfl)), rfl⟩
      · rw [if_neg hb, List.nil_append]
        constructor
        · rintro ⟨o, ho, hdir⟩
          by_cases hs : sp.arbitrage_up ∧ sp.profit_margin ≥ minp
          · rw [if_pos hs] at ho
            rcases List.mem_singleton.mp ho with rfl
            exact absurd hdir (by simp [mkOpportunity])
          · rw [if_neg hs] at ho
            exact absurd ho (List.not_mem_nil o)
        · intro h
          exact absurd h hb
    · by_cases hs : sp.arbitrage_up ∧ sp.profit_margin ≥ minp
      · rw [if_pos hs]
        constructor
        · intro _
          exact hs
        · intro _
          exact ⟨mkOpportunity m "sell_both" sp,
            List.mem_append.mpr (Or.inr (List.mem_singleton.mpr rfl)), rfl⟩
      · rw [if_neg hs, List.append_nil]
        constructor
        · rintro ⟨o, ho, hdir⟩
          by_cases hb : bp.arbitrage_down ∧ bp.profit_margin ≥ minp
          · rw [if_pos hb] at ho
            rcases List.mem_singleton.mp ho with rfl
            exact absurd hdir (by simp [mkOpportunity])
          · rw [if_neg hb] at ho
            exact absurd ho (List.not_mem_nil o)
        · intro h
          exact absurd h hs
    · rw [List.length_append]
      split_ifs <;> simp
  · refine ⟨[mkOpportunity demoMarket "buy_both" cpDemo],
      detect_demo_eval (3/100) (by norm_num), ?_⟩
    simp only [List.map_cons, List.map_nil, mkOpportunity]
    norm_num [ConditionPrices.sum_prices, ConditionPrices.profit_margin, cpDemo]

/-- Witness for C1: the emission rule applied at the scenario market, where the
selection hypothesis is discharged concretely; one buy_both opportunity. -/
theorem detect_emission_rule_witness :
    ∃ l, detect_single_condition_arbitrage demoMarket (3/100) true none =
        Except.ok l ∧ ∃ o ∈ l, o.direction = "buy_both" := by
  have hsel : selectPrices demoMarket true none =
      Except.ok (some cpDemo, some cpDemo) := rfl
  obtain ⟨⟨l, hl, hbuy, _, _⟩, _⟩ :=
    detect_emission_rule demoMarket (3/100) true none cpDemo cpDemo hsel
  refine ⟨l, hl, hbuy.mpr ⟨?_, ?_⟩⟩
  · show cpDemo.sum_prices < 1
    norm_num [ConditionPrices.sum_prices, cpDemo]
  · norm_num [ConditionPrices.profit_margin, ConditionPrices.sum_prices, cpDemo]

/-- Claim C2 (amended): price-source precedence of the detector. An explicit
pair is used directly; with order-book detection requested, present books with
all four best quotes and at least two token ids give buy = (best_ask_yes,
best_ask_no) and sell = (best_bid_yes, best_bid_no); a missing book or missing
side falls back to catalog prices for both; without order-book detection
catalog prices are used; an index error raised while building order-book
prices (books and quotes present but fewer than two token ids) propagates out
of the detector; and with no price data at all the detector returns the empty
list, not an error. -/
theorem price_source_precedence (m : Market) (minp : ℚ) (uob : Bool)
    (b s : Option ConditionPrices) :
    (selectPrices m uob (some (b, s)) = Except.ok (b, s)) ∧
    (∀ pBuy pSell, m.get_order_book_prices = Except.ok (some (pBuy, pSell)) →
      selectPrices m true none = Except.ok (some pBuy, some pSell)) ∧
    (m.get_order_book_prices = Except.ok none →
      selectPrices m true none = Except.ok (m.get_prices, m.get_prices)) ∧
    (selectPrices m false none = Except.ok (m.get_prices, m.get_prices)) ∧
    (∀ obY obN aY aN bY bN,
      m.order_book_yes = some obY → m.order_book_no = some obN →
      obY.best_ask = some aY → obN.best_ask = some aN →
      obY.best_bid = some bY → obN.best_bid = some bN →
      2 ≤ m.clob_token_ids.length →
      ∃ pBuy pSell, m.get_order_book_prices = Except.ok (some (pBuy, pSell)) ∧
        pBuy.price_yes = aY ∧ pBuy.price_no = aN ∧
        pSell.price_yes = bY ∧ pSell.price_no = bN) ∧
    ((m.order_book_yes = none ∨ m.order_book_no = none ∨
        (∃ obY obN, m.order_book_yes = some obY ∧ m.order_book_no = some obN ∧
          (obY.best_ask = none ∨ obN.best_ask = none ∨
           obY.best_bid = none ∨ obN.best_bid = none))) →
      selectPrices m true none = Except.ok (m.get_prices, m.get_prices)) ∧
    (m.get_order_book_prices = Except.error () →
      detect_single_condition_arbitrage m minp true none = Except.error ()) ∧
    (m.get_order_book_prices = Except.ok none → m.get_prices = none →
      detect_single_condition_arbitrage m minp true none = Except.ok []) := by
  refine ⟨rfl, ?_, ?_, rfl, ?_, ?_, ?_, ?_⟩
  · intro pBuy pSell h
    simp [selectPrices, h]
  · intro h
    simp [selectPrices, h]
  · intro obY obN aY aN bY bN hY hN haY haN hbY hbN hlen
    have hob : m.get_order_book_prices = Except.ok (some
        ({ token_id_yes := m.clob_token_ids.getD 0 ""
           token_id_no := m.clob_token_ids.getD 1 ""
           price_yes := aY
           price_no := aN
           outcome_yes := m.outcomes.getD 0 "Yes"
           outcome_no := m.outcomes.getD 1 "No" },
         { token_id_yes := m.clob_token_ids.getD 0 ""
           token_id_no := m.clob_token_ids.getD 1 ""
           price_yes := bY
           price_no := bN
           outcome_yes := m.outcomes.getD 0 "Yes"
           outcome_no := m.outcomes.getD 1 "No" })) := by
      simp only [Market.get_order_book_prices, hY, hN, haY, haN, hbY, hbN,
        if_pos hlen]
    exact ⟨_, _, hob, rfl, rfl, rfl, rfl⟩
  · intro h
    have hnone : m.get_order_book_prices = Except.ok none :=
      (get_order_book_prices_ok_none_iff m).mpr h
    simp [selectPrices, hnone]
  · intro h
    simp [detect_single_condition_arbitrage, selectPrices, h]
  · intro h1 h2
    simp [detect_single_condition_arbitrage, selectPrices, h1, h2]

/-- Claim C2 counterexample: on a market whose two order books and all four
best quotes are present but whose token-id list has fewer than two entries,
the program does not build buy/sell prices from the best quotes as the
original claim states: `get_order_book_prices` raises (IndexError on
`clob_token_ids[0]`), and price selection propagates the error. -/
theorem price_source_short_ids_cex :
    demoMarketShortIds.order_book_yes = some obUnit ∧
    demoMarketShortIds.order_book_no = some obUnit ∧
    obUnit.best_ask = some 1 ∧
    obUnit.best_bid = some 1 ∧
    Market.get_order_book_prices demoMarketShortIds = Except.error () ∧
    selectPrices demoMarketShortIds true none = Except.error () :=
  ⟨rfl, rfl, rfl, rfl, rfl, rfl⟩

/-- Witness for C2: the precedence theorem applied at concrete markets; the
demo market falls back to catalog prices, and a market with no data at all
yields the empty list without an error. -/
theorem price_source_precedence_witness :
    selectPrices demoMarket true none =
      Except.ok (Market.get_prices demoMarket, Market.get_prices demoMarket) ∧
    detect_single_condition_arbitrage demoMarketBare (3/100) true none =
      Except.ok [] := by
  have hd := price_source_precedence demoMarket (3/100) true none none
  have hb := price_source_precedence demoMarketBare (3/100) true none none
  exact ⟨hd.2.2.1 rfl, hb.2.2.2.2.2.2.2 rfl rfl⟩

/-- Claim C7 (code bug): the spec says missing or incomplete inputs never make
the detector raise, and the sibling `_gamma_prices` guards
`len(clob_token_ids) < 2` explicitly; but `get_order_book_prices` indexes
`clob_token_ids[0]` and `[1]` unguarded, so a market with both books attached
and all four best quotes present but fewer than two token ids raises
IndexError, which propagates out of the detector. This theorem evaluates the
embedded code at that failing input. -/
theorem detect_raises_on_short_token_ids :
    demoMarketShortIds.order_book_yes ≠ none ∧
    demoMarketShortIds.order_book_no ≠ none ∧
    obUnit.best_ask = some 1 ∧
    obUnit.best_bid = some 1 ∧
    demoMarketShortIds.clob_token_ids.length < 2 ∧
    Market.get_order_book_prices demoMarketShortIds = Except.error () ∧
    detect_single_condition_arbitrage demoMarketShortIds (3/100) true none =
      Except.error () := by
  refine ⟨?_, ?_, rfl, rfl, ?_, rfl, rfl⟩
  · simp [demoMarketShortIds]
  · simp [demoMarketShortIds]
  · simp [demoMarketShortIds]

/-- Claim C8: threshold monotonicity: for fixed inputs, whenever the detector
returns successfully at both thresholds, a higher min_profit never yields more
opportunities (at inputs where it raises, it raises identically at every
threshold, since price selection does not depend on the threshold). -/
theorem detect_threshold_monotone (m : Market) (uob : Bool)
    (cps : Option (Option ConditionPrices × Option ConditionPrices))
    (t1 t2 : ℚ) (h : t1 ≤ t2) (l1 l2 : List ArbitrageOpportunity)
    (h1 : detect_single_condition_arbitrage m t1 uob cps = Except.ok l1)
    (h2 : detect_single_condition_arbitrage m t2 uob cps = Except.ok l2) :
    l2.length ≤ l1.length := by
  unfold detect_single_condition_arbitrage at h1 h2
  cases hsel : selectPrices m uob cps with
  | error e =>
    rw [hsel] at h1
    exact Except.noConfusion h1
  | ok pair =>
    rw [hsel] at h1 h2
    obtain ⟨fst, snd⟩ := pair
    cases fst with
    | none =>
      cases snd with
      | none =>
        rw [← Except.ok.inj h1, ← Except.ok.inj h2]
      | some sp =>
        rw [← Except.ok.inj h1, ← Except.ok.inj h2]
    | some bp =>
      cases snd with
      | none =>
        rw [← Except.ok.inj h1, ← Except.ok.inj h2]
      | some sp =>
        rw [← Except.ok.inj h1, ← Except.ok.inj h2]
        rw [List.length_append, List.length_append]
        apply add_le_add
        · split_ifs with ha hb
          · simp
          · exact absurd ⟨ha.1, le_trans h ha.2⟩ hb
          · simp
          · simp
        · split_ifs with ha hb
          · simp
          · exact absurd ⟨ha.1, le_trans h ha.2⟩ hb
          · simp
          · simp

/-- Witness for C8: at thresholds 0.03 and 0.05 the demo market provably
returns the same single buy_both opportunity, so the count does not grow. -/
theorem detect_threshold_monotone_witness :
    List.length [mkOpportunity demoMarket "buy_both" cpDemo] ≤
      List.length [mkOpportunity demoMarket "buy_both" cpDemo] :=
  detect_threshold_monotone demoMarket true none (3/100) (5/100) (by norm_num)
    [mkOpportunity demoMarket "buy_both" cpDemo]
    [mkOpportunity demoMarket "buy_both" cpDemo]
    (detect_demo_eval (3/100) (by norm_num))
    (detect_demo_eval (5/100) (by norm_num))

/-- Claim C4: with both books present, nonnegative margin and sizes, the
estimator returns a value that is nonnegative and at most
profit_margin * min(yes depth, no depth), where each leg's depth is the ask
total for buy_both and the bid total for sell_both; without max_size the value
equals the bound, and with max_size the value equals profit_margin times the
additionally capped depth. -/
theorem max_extractable_depth_cap (o : ArbitrageOpportunity) (obY obN : OrderBook)
    (hY : o.order_book_yes = some obY) (hN : o.order_book_no = some obN)
    (hm : 0 ≤ o.profit_margin)
    (hbY : ∀ p ∈ obY.bids, 0 ≤ p.2) (haY : ∀ p ∈ obY.asks, 0 ≤ p.2)
    (hbN : ∀ p ∈ obN.bids, 0 ≤ p.2) (haN : ∀ p ∈ obN.asks, 0 ≤ p.2)
    (ms : Option ℚ) (hms : ∀ x, ms = some x → 0 ≤ x) :
    ∃ v, o.max_extractable_usd ms = some v ∧ 0 ≤ v ∧
      v ≤ o.profit_margin * min (legDepth o.direction obY) (legDepth o.direction obN) ∧
      (ms = none →
        v = o.profit_margin * min (legDepth o.direction obY) (legDepth o.direction obN)) ∧
      ∀ x, ms = some x →
        v = o.profit_margin *
          min (min (legDepth o.direction obY) (legDepth o.direction obN)) x := by
  have hdY : 0 ≤ legDepth o.direction obY := by
    unfold legDepth
    split_ifs
    · exact sumSizes_nonneg _ hbY
    · exact sumSizes_nonneg _ haY
  have hdN : 0 ≤ legDepth o.direction obN := by
    unfold legDepth
    split_ifs
    · exact sumSizes_nonneg _ hbN
    · exact sumSizes_nonneg _ haN
  have hmin : 0 ≤ min (legDepth o.direction obY) (legDepth o.direction obN) :=
    le_min hdY hdN
  unfold ArbitrageOpportunity.max_extractable_usd
  rw [hY, hN]
  cases ms with
  | none =>
    refine ⟨o.profit_margin *
      min (legDepth o.direction obY) (legDepth o.direction obN),
      rfl, ?_, le_refl _, fun _ => rfl, ?_⟩
    · exact mul_nonneg hm hmin
    · intro x hx
      exact absurd hx (by simp)
  | some x =>
    refine ⟨o.profit_margin *
      min (min (legDepth o.direction obY) (legDepth o.direction obN)) x,
      rfl, ?_, ?_, ?_, ?_⟩
    · exact mul_nonneg hm (le_min hmin (hms x rfl))
    · exact mul_le_mul_of_nonneg_left (min_le_left _ _) hm
    · intro hc
      exact absurd hc (by simp)
    · intro y hy
      cases hy
      rfl

/-- Witness for C4, spec scenario 4: ask depth 100 on YES at 0.45 and 80 on NO
at 0.50 with margin 0.05 gives max_extractable_usd = 0.05 * min(100, 80) = 4. -/
theorem max_extractable_depth_cap_witness :
    oppDemo.max_extractable_usd none = some 4 := by
  obtain ⟨v, hv, hnn, hle, hnone, hsome⟩ :=
    max_extractable_depth_cap oppDemo obYdemo obNdemo rfl rfl
      (by norm_num [oppDemo])
      (by intro p hp; simp [obYdemo] at hp)
      (by intro p hp
          simp only [obYdemo] at hp
          rcases List.mem_singleton.mp hp with rfl
          norm_num)
      (by intro p hp; simp [obNdemo] at hp)
      (by intro p hp
          simp only [obNdemo] at hp
          rcases List.mem_singleton.mp hp with rfl
          norm_num)
      none (by intro x hx; cases hx)
  rw [hv, hnone rfl]
  have hss : ¬ ("buy_both" : String) = "sell_both" := by simp
  simp only [oppDemo, legDepth, obYdemo, obNdemo, sumSizes, List.map_cons,
    List.map_nil, List.sum_cons, List.sum_nil, if_neg hss]
  norm_num [min_def]

/-- Witness for C3: the ConditionPrices invariants instantiated at the demo
prices 0.45 / 0.50. -/
theorem conditionPrices_invariants_witness :
    0 ≤ cpDemo.profit_margin ∧
    (cpDemo.arbitrage_up ∨ cpDemo.arbitrage_down →
      cpDemo.profit_margin = |cpDemo.sum_prices - 1|) := by
  have h := conditionPrices_invariants cpDemo
  exact ⟨h.2.2.1, h.2.2.2.2⟩

/-- Witness for C5: the clipping bounds instantiated at concrete vectors. -/
theorem kl_divergence_clipping_witness :
    ∀ x ∈ klSafe [0] klEps ++ klSafe [2] klEps,
      klEps ≤ x ∧ x ≤ 1 - klEps ∧ 0 < x ∧ x < 1 :=
  (kl_divergence_clipping [0] [2]).1

lemma sumSizes_cons (pr sz : ℚ) (t : List (ℚ × ℚ)) :
    sumSizes ((pr, sz) :: t) = sz + sumSizes t := by
  simp [sumSizes]

lemma sortAsc_perm (l : List (ℚ × ℚ)) : List.Perm (sortAsc l) l :=
  List.mergeSort_perm l pairLe

lemma sortDesc_perm (l : List (ℚ × ℚ)) : List.Perm (sortDesc l) l :=
  List.mergeSort_perm l pairGe

lemma sumSizes_perm (l l' : List (ℚ × ℚ)) (h : List.Perm l l') :
    sumSizes l = sumSizes l' := by
  unfold sumSizes
  exact (h.map Prod.snd).sum_eq

lemma fillCost_zero (l : List (ℚ × ℚ)) (h : ∀ p ∈ l, 0 ≤ p.2) :
    fillCost l 0 = 0 := by
  induction l with
  | nil => rfl
  | cons hd t ih =>
    obtain ⟨p, s⟩ := hd
    have hs0 : 0 ≤ s := h (p, s) (List.mem_cons_self _ _)
    have ht : ∀ q ∈ t, 0 ≤ q.2 := fun q hq => h q (List.mem_cons_of_mem _ hq)
    unfold fillCost
    rw [max_self, min_eq_right hs0]
    simp [ih ht]

lemma vwapWalk_spec (l : List (ℚ × ℚ)) (cost rem : ℚ) (hrem : 0 < rem)
    (hs : ∀ p ∈ l, 0 ≤ p.2) :
    vwapWalk l cost rem = (cost + fillCost l rem, rem - min rem (sumSizes l)) := by
  induction l generalizing cost rem with
  | nil =>
    unfold vwapWalk fillCost sumSizes
    simp [min_eq_right hrem.le]
  | cons hd t ih =>
    obtain ⟨p, s⟩ := hd
    have hs0 : 0 ≤ s := hs (p, s) (List.mem_cons_self _ _)
    have hst : ∀ q ∈ t, 0 ≤ q.2 := fun q hq => hs q (List.mem_cons_of_mem _ hq)
    have hsum_t : 0 ≤ sumSizes t := sumSizes_nonneg t hst
    unfold vwapWalk
    by_cases hbreak : rem - min rem s ≤ 0
    · rw [if_pos hbreak]
      have hmin : min rem s = rem := by
        have h1 : min rem s ≤ rem := min_le_left _ _
        exact le_antisymm h1 (by linarith)
      have hrs : rem ≤ s := by
        have h2 : min rem s ≤ s := min_le_right _ _
        rw [hmin] at h2
        exact h2
      have hfc : fillCost ((p, s) :: t) rem = p * rem := by
        unfold fillCost
        rw [max_eq_left hrem.le, min_eq_right hrs, sub_self, fillCost_zero t hst]
        ring
      have hsum : min rem (sumSizes ((p, s) :: t)) = rem := by
        apply min_eq_left
        rw [sumSizes_cons]
        linarith
      rw [hmin, hfc, hsum]
    · rw [if_neg hbreak]
      have hlt : 0 < rem - min rem s := not_le.mp hbreak
      have hmin : min rem s = s := by
        rcases min_cases rem s with ⟨h1, _⟩ | ⟨h1, _⟩
        · exfalso
          rw [h1] at hlt
          simp at hlt
        · exact h1
      have hslt : s < rem := by
        rw [hmin] at hlt
        linarith
      rw [hmin]
      rw [ih (cost + p * s) (rem - s) (by linarith) hst]
      have hfc : fillCost ((p, s) :: t) rem = p * s + fillCost t (rem - s) := by
        simp only [fillCost]
        rw [max_eq_left hrem.le, min_eq_left hslt.le]
      have hsum : rem - min rem (sumSizes ((p, s) :: t)) =
          (rem - s) - min (rem - s) (sumSizes t) := by
        rw [sumSizes_cons]
        rcases le_total (rem - s) (sumSizes t) with hc | hc
        · rw [min_eq_left hc, min_eq_left (by linarith : rem ≤ s + sumSizes t)]
          ring
        · rw [min_eq_right hc, min_eq_right (by linarith : s + sumSizes t ≤ rem)]
          ring
      rw [hfc, hsum]
      simp only [Prod.mk.injEq]
      refine ⟨by ring, ?_⟩
      trivial

lemma vwapGeneric (l : List (ℚ × ℚ)) (q : ℚ) (hq : 0 < q)
    (hs : ∀ p ∈ l, 0 ≤ p.2) :
    ((if (vwapWalk l 0 q).2 > 0 then none
      else if q > 0 then some ((vwapWalk l 0 q).1 / q) else some 0) = none ↔
      sumSizes l < q) ∧
    ∀ v, (if (vwapWalk l 0 q).2 > 0 then none
      else if q > 0 then some ((vwapWalk l 0 q).1 / q) else some 0) = some v →
      v * q = fillCost l q := by
  have hw := vwapWalk_spec l 0 q hq hs
  have h2 : (vwapWalk l 0 q).2 = q - min q (sumSizes l) := by rw [hw]
  have h1 : (vwapWalk l 0 q).1 = fillCost l q := by
    rw [hw]
    simp
  rw [h2, h1]
  constructor
  · by_cases hc : sumSizes l < q
    · have hcond : q - min q (sumSizes l) > 0 := by
        rw [min_eq_right hc.le]
        linarith
      rw [if_pos hcond]
      exact iff_of_true rfl hc
    · have hcond : ¬(q - min q (sumSizes l) > 0) := by
        push_neg at hc
        rw [min_eq_left hc]
        simp
      rw [if_neg hcond, if_pos hq]
      exact iff_of_false (by simp) hc
  · intro v hv
    by_cases hc : sumSizes l < q
    · have hcond : q - min q (sumSizes l) > 0 := by
        rw [min_eq_right hc.le]
        linarith
      rw [if_pos hcond] at hv
      exact absurd hv (by simp)
    · have hcond : ¬(q - min q (sumSizes l) > 0) := by
        push_neg at hc
        rw [min_eq_left hc]
        simp
      rw [if_neg hcond, if_pos hq] at hv
      rw [← Option.some.inj hv]
      exact div_mul_cancel₀ _ (ne_of_gt hq)

/-- Claim C9: for every order book and positive requested size, VWAP-to-buy
returns a value exactly when the total ask size covers the request (otherwise
`none`, insufficient liquidity), and the value times the size equals the cost
of the greedy fill walking asks in ascending order; VWAP-to-sell is the
mirror over bids walked in descending order. -/
theorem vwap_fill_characterization (b : OrderBook) (q : ℚ) (hq : 0 < q)
    (ha : ∀ p ∈ b.asks, 0 ≤ p.2) (hb : ∀ p ∈ b.bids, 0 ≤ p.2) :
    (b.vwap_buy q = none ↔ sumSizes b.asks < q) ∧
    (∀ v, b.vwap_buy q = some v → v * q = fillCost (sortAsc b.asks) q) ∧
    (b.vwap_sell q = none ↔ sumSizes b.bids < q) ∧
    (∀ v, b.vwap_sell q = some v → v * q = fillCost (sortDesc b.bids) q) := by
  have hga : ∀ p ∈ sortAsc b.asks, 0 ≤ p.2 :=
    fun p hp => ha p ((sortAsc_perm b.asks).subset hp)
  have hgb : ∀ p ∈ sortDesc b.bids, 0 ≤ p.2 :=
    fun p hp => hb p ((sortDesc_perm b.bids).subset hp)
  have hA := vwapGeneric (sortAsc b.asks) q hq hga
  have hB := vwapGeneric (sortDesc b.bids) q hq hgb
  rw [sumSizes_perm _ _ (sortAsc_perm b.asks)] at hA
  rw [sumSizes_perm _ _ (sortDesc_perm b.bids)] at hB
  exact ⟨hA.1, hA.2, hB.1, hB.2⟩

/-- Witness for C9: the demo YES book (100 asked, no bids) has insufficient
ask liquidity for a request of 150 and no bid liquidity for a sale of 80. -/
theorem vwap_fill_characterization_witness :
    OrderBook.vwap_buy obYdemo 150 = none ∧
    OrderBook.vwap_sell obYdemo 80 = none := by
  have hask : ∀ p ∈ obYdemo.asks, 0 ≤ p.2 := by
    intro p hp
    simp only [obYdemo] at hp
    rcases List.mem_singleton.mp hp with rfl
    norm_num
  have hbid : ∀ p ∈ obYdemo.bids, 0 ≤ p.2 := by
    intro p hp
    simp [obYdemo] at hp
  have h150 := vwap_fill_characterization obYdemo 150 (by norm_num) hask hbid
  have h80 := vwap_fill_characterization obYdemo 80 (by norm_num) hask hbid
  constructor
  · apply h150.1.mpr
    norm_num [sumSizes, obYdemo]
  · apply h80.2.2.1.mpr
    norm_num [sumSizes, obYdemo]
